import Mathlib

/-!
Verification of the cquery incremental-indexing core.

The first section embeds `src/file_types.cc` (the `AbsolutePath` and
`Directory` types, their comparison operators, and their `Reflect`
serialization hooks).  The later sections model the indexing pipeline
described in the specification — Cache Store, Merge Engine, Staleness
Tracker and the worker step — whose implementation files are not part
of the sources at hand; each such definition is marked as modelled
from the spec.
-/

namespace Cquery

/-- Modelled from the spec: `IsAbsolutePath` (declared in `platform.h`;
its implementation `platform.cc` is not among the sources).  A path is
absolute when it begins with the POSIX path separator. -/
def IsAbsolutePath (path : String) : Bool :=
  path.data.head? == some '/'

/-- `AbsolutePath` from `file_types.h`/`file_types.cc`: a wrapper
holding the path string. -/
structure AbsolutePath where
  path : String
deriving DecidableEq

/-- `AbsolutePath::AbsolutePath(const std::string& path, bool validate)`
(file_types.cc:10-16): the member initializer stores `path`
unconditionally; when `validate` holds and the path is not absolute the
body only logs an error message.  We return the constructed value
together with the flag telling whether the error branch was taken. -/
def mkAbsolutePath (path : String) (validate : Bool) : AbsolutePath × Bool :=
  (⟨path⟩, validate && !IsAbsolutePath path)

/-- `AbsolutePath::operator==` (file_types.cc:22-24). -/
def absEq (a b : AbsolutePath) : Bool :=
  a.path == b.path

/-- `AbsolutePath::operator!=` (file_types.cc:26-28). -/
def absNe (a b : AbsolutePath) : Bool :=
  a.path != b.path

/-- `Reflect(Writer&, AbsolutePath&)` (file_types.cc:33-35): writes the
stored path string verbatim. -/
def reflectWriteAbsolutePath (v : AbsolutePath) : String :=
  v.path

/-- `Reflect(Reader&, AbsolutePath&)` (file_types.cc:30-32): reads a
string into the path field, with no validation. -/
def reflectReadAbsolutePath (s : String) : AbsolutePath :=
  ⟨s⟩

/-- `Directory` from `file_types.h`: a wrapper holding the
slash-terminated path string. -/
structure Directory where
  path : String
deriving DecidableEq

/-- Modelled from the spec: `EnsureEndsInSlash` (declared in `utils.h`;
its implementation `utils.cc` is not among the sources).  As its name
and call site state, it appends a trailing slash when the string is
empty or does not already end in one. -/
def EnsureEndsInSlash (path : String) : String :=
  if path.data.getLast? = some '/' then path else path ++ "/"

/-- `Directory::Directory(const AbsolutePath&)` (file_types.cc:37-39):
copies the path and normalizes it to end in a slash. -/
def mkDirectory (p : AbsolutePath) : Directory :=
  ⟨EnsureEndsInSlash p.path⟩

/-- `Directory::operator==` (file_types.cc:41-43). -/
def dirEq (a b : Directory) : Bool :=
  a.path == b.path

/-- `Directory::operator!=` (file_types.cc:45-47). -/
def dirNe (a b : Directory) : Bool :=
  a.path != b.path

end Cquery

namespace Cquery

/-- C1, counterexample: constructing an `AbsolutePath` from the relative
path "foo.cc" with validation enabled still stores the relative path —
the validation branch fires (an error would be logged) but the value is
constructed and holds a non-absolute path. -/
theorem c1_counterexample :
    (mkAbsolutePath "foo.cc" true).1.path = "foo.cc" ∧
    IsAbsolutePath (mkAbsolutePath "foo.cc" true).1.path = false ∧
    (mkAbsolutePath "foo.cc" true).2 = true := by
  refine ⟨rfl, ?_, ?_⟩ <;> decide

/-- C1, amended: the constructor stores the given path verbatim for
every path and flag; the validation branch only logs (it fires exactly
when `validate` is set and the path is not absolute) and never prevents
a relative path from being stored, so an `AbsolutePath` reachable
through the public constructor may hold a relative path. -/
theorem c1_constructor_stores_verbatim (p : String) (validate : Bool) :
    (mkAbsolutePath p validate).1.path = p ∧
    ((mkAbsolutePath p validate).2 = true ↔
      validate = true ∧ IsAbsolutePath p = false) := by
  refine ⟨rfl, ?_⟩
  simp [mkAbsolutePath, Bool.and_eq_true, Bool.not_eq_true']

/-- C8: for both `AbsolutePath` and `Directory`, `operator==` holds
exactly when the stored path strings are equal, `operator!=` is its
exact Boolean negation, and `operator==` is an equivalence relation
(reflexive, symmetric, transitive). -/
theorem c8_path_equality (a b c : AbsolutePath) (d e f : Directory) :
    (absEq a b = true ↔ a.path = b.path) ∧
    (absNe a b = !absEq a b) ∧
    (absEq a a = true) ∧
    (absEq a b = true ↔ absEq b a = true) ∧
    (absEq a b = true → absEq b c = true → absEq a c = true) ∧
    (dirEq d e = true ↔ d.path = e.path) ∧
    (dirNe d e = !dirEq d e) ∧
    (dirEq d d = true) ∧
    (dirEq d e = true ↔ dirEq e d = true) ∧
    (dirEq d e = true → dirEq e f = true → dirEq d f = true) := by
  refine ⟨?_, ?_, ?_, ?_, ?_, ?_, ?_, ?_, ?_, ?_⟩ <;>
    simp only [absEq, absNe, dirEq, dirNe, beq_iff_eq, bne]
  · exact eq_comm
  · exact fun h h' => h.trans h'
  · exact eq_comm
  · exact fun h h' => h.trans h'

/-- C8, witness: the equality laws instantiated at concrete paths. -/
theorem c8_path_equality_witness :
    (absEq ⟨"/a"⟩ ⟨"/a"⟩ = true ↔ ("/a" : String) = "/a") ∧
    (absNe ⟨"/a"⟩ ⟨"/a"⟩ = !absEq ⟨"/a"⟩ ⟨"/a"⟩) ∧
    (absEq ⟨"/a"⟩ ⟨"/a"⟩ = true) ∧
    (absEq ⟨"/a"⟩ ⟨"/a"⟩ = true ↔ absEq ⟨"/a"⟩ ⟨"/a"⟩ = true) ∧
    (absEq ⟨"/a"⟩ ⟨"/a"⟩ = true → absEq ⟨"/a"⟩ ⟨"/b"⟩ = true →
      absEq ⟨"/a"⟩ ⟨"/b"⟩ = true) ∧
    (dirEq ⟨"/d/"⟩ ⟨"/e/"⟩ = true ↔ ("/d/" : String) = "/e/") ∧
    (dirNe ⟨"/d/"⟩ ⟨"/e/"⟩ = !dirEq ⟨"/d/"⟩ ⟨"/e/"⟩) ∧
    (dirEq ⟨"/d/"⟩ ⟨"/d/"⟩ = true) ∧
    (dirEq ⟨"/d/"⟩ ⟨"/e/"⟩ = true ↔ dirEq ⟨"/e/"⟩ ⟨"/d/"⟩ = true) ∧
    (dirEq ⟨"/d/"⟩ ⟨"/e/"⟩ = true → dirEq ⟨"/e/"⟩ ⟨"/f/"⟩ = true →
      dirEq ⟨"/d/"⟩ ⟨"/f/"⟩ = true) :=
  c8_path_equality ⟨"/a"⟩ ⟨"/a"⟩ ⟨"/b"⟩ ⟨"/d/"⟩ ⟨"/e/"⟩ ⟨"/f/"⟩

/-- C9: serializing an `AbsolutePath` and deserializing the produced
string yields the original value — the path is written and read back
verbatim, with no validation on the read side. -/
theorem c9_reflect_roundtrip (v : AbsolutePath) :
    reflectReadAbsolutePath (reflectWriteAbsolutePath v) = v :=
  rfl

/-- The character data of the one-character slash string. -/
theorem slash_data : ("/" : String).data = ['/'] :=
  rfl

/-- C10: the `Directory` constructed from an `AbsolutePath` `p` always
ends in a slash; when `p`'s path does not already end in a slash the
result is `p`'s path with a slash appended (so its slash-less prefix is
`p`'s path), when it does the result is `p`'s path unchanged; and the
construction is idempotent on already-normalized paths. -/
theorem c10_directory_normalization (p : AbsolutePath) :
    (mkDirectory p).path.data.getLast? = some '/' ∧
    (p.path.data.getLast? ≠ some '/' → (mkDirectory p).path = p.path ++ "/") ∧
    (p.path.data.getLast? = some '/' → (mkDirectory p).path = p.path) ∧
    mkDirectory ⟨(mkDirectory p).path⟩ = mkDirectory p := by
  unfold mkDirectory EnsureEndsInSlash
  by_cases h : p.path.data.getLast? = some '/'
  · simp [h]
  · simp [h, String.data_append, slash_data, List.getLast?_concat]

/-- C10, witness: the normalization facts at the concrete path "/a". -/
theorem c10_directory_normalization_witness :
    (mkDirectory ⟨"/a"⟩).path.data.getLast? = some '/' ∧
    (("/a" : String).data.getLast? ≠ some '/' →
      (mkDirectory ⟨"/a"⟩).path = "/a" ++ "/") ∧
    (("/a" : String).data.getLast? = some '/' →
      (mkDirectory ⟨"/a"⟩).path = "/a") ∧
    mkDirectory ⟨(mkDirectory ⟨"/a"⟩).path⟩ = mkDirectory ⟨"/a"⟩ :=
  c10_directory_normalization ⟨"/a"⟩

/-- Modelled from the spec: a symbol's unique ID, derived from its
structural fingerprint (qualified name + signature), not from
file/line. -/
abbrev SymbolId := Nat

/-- Modelled from the spec: a source range (line/column information of
a use). -/
structure Range where
  line : Nat
  col : Nat
deriving DecidableEq

/-- Modelled from the spec: the role of a use. -/
inductive Role where
  | declaration
  | definition
  | reference
  | call
deriving DecidableEq

/-- Modelled from the spec: one use of a symbol — (file, range, role). -/
structure Use where
  file : String
  range : Range
  role : Role
deriving DecidableEq

/-- Modelled from the spec: the database's record for one symbol — its
kind and its use list. -/
structure SymbolData where
  kind : Nat
  uses : List Use
deriving DecidableEq

/-- Modelled from the spec: one symbol descriptor in the Front-end
Adapter's output — structural fingerprint, kind, and the uses found in
the extracted file. -/
structure SymbolDescriptor where
  fingerprint : SymbolId
  kind : Nat
  uses : List (Range × Role)
deriving DecidableEq

/-- Modelled from the spec: `ExtractedIndex`, the Front-end Adapter's
output for one file — an ordered sequence of symbol descriptors. -/
abbrev ExtractedIndex := List SymbolDescriptor

/-- Modelled from the spec: `FileRecord` — absolute path, content
fingerprint, last-indexed timestamp, and the IDs of the symbols this
file touches. -/
structure FileRecord where
  path : String
  fingerprint : String
  timestamp : Nat
  symbolIds : List SymbolId
deriving DecidableEq

/-- Modelled from the spec: the Symbol Index Database — an ID-addressed
symbol table and a per-path file-record table. -/
structure Database where
  symbols : SymbolId → Option SymbolData
  files : String → Option FileRecord

/-- Look up the descriptor for a symbol ID in an extracted index. -/
def findDescriptor (idx : ExtractedIndex) (id : SymbolId) : Option SymbolDescriptor :=
  idx.find? (fun d => d.fingerprint == id)

/-- The uses a descriptor contributes, attributed to the extracted
file. -/
def usesOfDescriptor (file : String) (d : SymbolDescriptor) : List Use :=
  d.uses.map (fun u => ⟨file, u.1, u.2⟩)

/-- Modelled from the spec: the Merge Engine's per-symbol step for a
merge of `file`'s new extraction `idx` — remove the uses this file
previously contributed, add the uses from the new extraction, and prune
the symbol entirely when no use remains anywhere. -/
def mergeSymbol (file : String) (idx : ExtractedIndex) (old : Option SymbolData)
    (id : SymbolId) : Option SymbolData :=
  let kept := match old with
    | some s => s.uses.filter (fun u => u.file != file)
    | none => []
  match findDescriptor idx id with
  | some d =>
      let us := kept ++ usesOfDescriptor file d
      if us.isEmpty then none else some ⟨d.kind, us⟩
  | none =>
      match old with
      | some s => if kept.isEmpty then none else some ⟨s.kind, kept⟩
      | none => none

/-- Modelled from the spec: the Merge Engine — fold one file's fresh
`ExtractedIndex` into the database, replacing only that file's prior
contribution, and swap in the new `FileRecord` for that file. -/
def merge (db : Database) (file : String) (fp : String) (ts : Nat)
    (idx : ExtractedIndex) : Database :=
  { symbols := fun id => mergeSymbol file idx (db.symbols id) id
    files := fun p =>
      if p = file then some ⟨file, fp, ts, idx.map (·.fingerprint)⟩
      else db.files p }

/-- Modelled from the spec: `find_definition(symbol_id)` — the location
of the symbol's definition use, or none when the symbol is absent or
has no definition use. -/
def find_definition (db : Database) (id : SymbolId) : Option (String × Range) :=
  match db.symbols id with
  | some s =>
      (s.uses.find? (fun u => u.role == Role.definition)).map
        (fun u => (u.file, u.range))
  | none => none

/-- A concrete symbol whose only use is a definition in "b.cpp". -/
def exSymB : SymbolData :=
  ⟨0, [⟨"b.cpp", ⟨1, 0⟩, Role.definition⟩]⟩

/-- A concrete database holding only `exSymB` (symbol ID 1) and a
file record for "b.cpp". -/
def exDb : Database :=
  { symbols := fun id => if id = 1 then some exSymB else none
    files := fun p =>
      if p = "b.cpp" then some ⟨"b.cpp", "hb", 0, [1]⟩ else none }

/-- A concrete extraction for "a.cpp" that references symbol ID 1. -/
def exIdxA : ExtractedIndex :=
  [⟨1, 0, [(⟨5, 0⟩, Role.reference)]⟩]

/-- C2, counterexample: symbol 1's uses are confined to "b.cpp", yet
merging a new index for the distinct file "a.cpp" that references
symbol 1 alters that symbol (it gains the new reference use), so the
claim as stated fails. -/
theorem c2_counterexample :
    ("a.cpp" : String) ≠ "b.cpp" ∧
    (∀ u ∈ exSymB.uses, u.file = "b.cpp") ∧
    exDb.symbols 1 = some exSymB ∧
    (merge exDb "a.cpp" "ha" 1 exIdxA).symbols 1 ≠ some exSymB := by
  refine ⟨by decide, by decide, rfl, by decide⟩

/-- C2, amended: merging a new `ExtractedIndex` for file `A` leaves
unchanged every `FileRecord` of any other file `B`, and every symbol
whose uses are confined to `B` *and whose fingerprint does not occur in
`A`'s new extraction* (a symbol the new extraction mentions gains
`A`-attributed uses, which is the one alteration the merge may make to
a symbol previously confined to `B`). -/
theorem c2_isolation (db : Database) (A B fp : String) (ts : Nat)
    (idx : ExtractedIndex) (f : SymbolId) (s : SymbolData)
    (hAB : B ≠ A) (hs : db.symbols f = some s) (hne : s.uses ≠ [])
    (hconf : ∀ u ∈ s.uses, u.file = B)
    (hnotin : findDescriptor idx f = none) :
    (merge db A fp ts idx).symbols f = some s ∧
    (merge db A fp ts idx).files B = db.files B := by
  constructor
  · show mergeSymbol A idx (db.symbols f) f = some s
    rw [hs]
    have hkeep : s.uses.filter (fun u => u.file != A) = s.uses := by
      apply List.filter_eq_self.mpr
      intro u hu
      simp [hconf u hu, hAB]
    simp only [mergeSymbol, hnotin, hkeep]
    cases hu : s.uses with
    | nil => exact absurd hu hne
    | cons u us =>
        simp only [hu, List.isEmpty_cons, if_neg Bool.false_ne_true,
          Option.some.injEq]
        rw [← hu]
  · show (if B = A then _ else db.files B) = db.files B
    rw [if_neg hAB]

/-- C2, witness: the amended isolation facts at a concrete database,
merging an empty extraction for "a.cpp" while symbol 1 and the file
record of "b.cpp" stay untouched. -/
theorem c2_isolation_witness :
    (("b.cpp" : String) ≠ "a.cpp" ∧ exDb.symbols 1 = some exSymB ∧
      exSymB.uses ≠ [] ∧ (∀ u ∈ exSymB.uses, u.file = "b.cpp") ∧
      findDescriptor [] 1 = none) ∧
    (merge exDb "a.cpp" "ha" 1 []).symbols 1 = some exSymB ∧
    (merge exDb "a.cpp" "ha" 1 []).files "b.cpp" = exDb.files "b.cpp" :=
  ⟨⟨by decide, rfl, by decide, by decide, rfl⟩,
    c2_isolation exDb "a.cpp" "b.cpp" "ha" 1 [] 1 exSymB (by decide) rfl
      (by decide) (by decide) rfl⟩

/-- C4: a fresh symbol is stored under its structural fingerprint `f`;
reindexing its file with the declaration moved to a new range but the
fingerprint unchanged keeps the symbol at the same ID `f`,
`find_definition` then reports the new location, and the ID-addressed
table holds exactly the single updated entry for `f` (no duplicate). -/
theorem c4_identity_stability (db : Database) (A fp fp' : String)
    (ts ts' : Nat) (f k : Nat) (r r' : Range)
    (hfresh : db.symbols f = none) :
    find_definition (merge db A fp ts [⟨f, k, [(r, Role.definition)]⟩]) f
      = some (A, r) ∧
    find_definition (merge (merge db A fp ts [⟨f, k, [(r, Role.definition)]⟩])
      A fp' ts' [⟨f, k, [(r', Role.definition)]⟩]) f = some (A, r') ∧
    (merge (merge db A fp ts [⟨f, k, [(r, Role.definition)]⟩]) A fp' ts'
      [⟨f, k, [(r', Role.definition)]⟩]).symbols f
      = some ⟨k, [⟨A, r', Role.definition⟩]⟩ := by
  have h1 : (merge db A fp ts [⟨f, k, [(r, Role.definition)]⟩]).symbols f
      = some ⟨k, [⟨A, r, Role.definition⟩]⟩ := by
    show mergeSymbol A [⟨f, k, [(r, Role.definition)]⟩] (db.symbols f) f = _
    rw [hfresh]
    simp [mergeSymbol, findDescriptor, usesOfDescriptor]
  have h2 : (merge (merge db A fp ts [⟨f, k, [(r, Role.definition)]⟩]) A fp' ts'
      [⟨f, k, [(r', Role.definition)]⟩]).symbols f
      = some ⟨k, [⟨A, r', Role.definition⟩]⟩ := by
    show mergeSymbol A [⟨f, k, [(r', Role.definition)]⟩]
      ((merge db A fp ts [⟨f, k, [(r, Role.definition)]⟩]).symbols f) f = _
    rw [h1]
    simp [mergeSymbol, findDescriptor, usesOfDescriptor]
  refine ⟨?_, ?_, h2⟩
  · simp [find_definition, h1]
  · simp [find_definition, h2]

/-- C4, witness: the identity-stability facts for a fresh symbol with
ID 2 declared in "a.cpp" at line 3, then moved to line 10. -/
theorem c4_identity_stability_witness :
    exDb.symbols 2 = none ∧
    (find_definition (merge exDb "a.cpp" "h1" 1
        [⟨2, 0, [(⟨3, 0⟩, Role.definition)]⟩]) 2 = some ("a.cpp", ⟨3, 0⟩) ∧
      find_definition (merge (merge exDb "a.cpp" "h1" 1
          [⟨2, 0, [(⟨3, 0⟩, Role.definition)]⟩]) "a.cpp" "h2" 2
        [⟨2, 0, [(⟨10, 0⟩, Role.definition)]⟩]) 2 = some ("a.cpp", ⟨10, 0⟩) ∧
      (merge (merge exDb "a.cpp" "h1" 1 [⟨2, 0, [(⟨3, 0⟩, Role.definition)]⟩])
          "a.cpp" "h2" 2 [⟨2, 0, [(⟨10, 0⟩, Role.definition)]⟩]).symbols 2
        = some ⟨0, [⟨"a.cpp", ⟨10, 0⟩, Role.definition⟩]⟩) :=
  ⟨rfl, c4_identity_stability exDb "a.cpp" "h1" "h2" 1 2 2 0 ⟨3, 0⟩ ⟨10, 0⟩ rfl⟩

/-- C5: when a symbol's remaining uses all lie in file `F` and `F`'s
new extraction no longer mentions it, merging prunes the symbol from
the database entirely and `find_definition` for its ID returns none. -/
theorem c5_removal (db : Database) (F fp : String) (ts : Nat)
    (idx : ExtractedIndex) (f : SymbolId) (s : SymbolData)
    (hs : db.symbols f = some s) (hconf : ∀ u ∈ s.uses, u.file = F)
    (hgone : findDescriptor idx f = none) :
    (merge db F fp ts idx).symbols f = none ∧
    find_definition (merge db F fp ts idx) f = none := by
  have h : (merge db F fp ts idx).symbols f = none := by
    show mergeSymbol F idx (db.symbols f) f = none
    rw [hs]
    have hkeep : s.uses.filter (fun u => u.file != F) = [] := by
      simp only [List.filter_eq_nil_iff]
      intro u hu
      simp [hconf u hu]
    simp [mergeSymbol, hgone, hkeep]
  exact ⟨h, by simp [find_definition, h]⟩

/-- C5, witness: deleting symbol 1's sole declaration from "b.cpp" and
reindexing "b.cpp" with an empty extraction prunes the symbol and makes
`find_definition` return none. -/
theorem c5_removal_witness :
    exDb.symbols 1 = some exSymB ∧
    (∀ u ∈ exSymB.uses, u.file = "b.cpp") ∧
    findDescriptor [] 1 = none ∧
    (merge exDb "b.cpp" "hb2" 2 []).symbols 1 = none ∧
    find_definition (merge exDb "b.cpp" "hb2" 2 []) 1 = none := by
  have h := c5_removal exDb "b.cpp" "hb2" 2 [] 1 exSymB rfl (by decide) rfl
  exact ⟨rfl, by decide, rfl, h.1, h.2⟩

/-- Modelled from the spec: a content fingerprint (hash of the file's
bytes), modelled as the content itself — an injective, deterministic
hash. -/
abbrev Fingerprint := String

/-- Modelled from the spec: the Cache Store's state — for each path the
stored (fingerprint, index) entry, if any. -/
abbrev CacheStore := String → Option (Fingerprint × ExtractedIndex)

/-- The empty Cache Store. -/
def emptyCacheStore : CacheStore :=
  fun _ => none

/-- Modelled from the spec: `put(path, fingerprint, index)` —
last-writer-wins per path. -/
def cachePut (s : CacheStore) (p : String) (f : Fingerprint)
    (idx : ExtractedIndex) : CacheStore :=
  fun q => if q = p then some (f, idx) else s q

/-- Modelled from the spec: `get(path, fingerprint)` — a hit is
returned only when the stored fingerprint equals the requested one. -/
def cacheGet (s : CacheStore) (p : String) (f : Fingerprint) :
    Option ExtractedIndex :=
  match s p with
  | some (f', idx) => if f' = f then some idx else none
  | none => none

/-- One recorded `put` operation. -/
structure PutEvent where
  path : String
  fingerprint : Fingerprint
  index : ExtractedIndex
deriving DecidableEq

/-- Replay a history of `put` operations against a store, oldest
first. -/
def applyPuts (s : CacheStore) (h : List PutEvent) : CacheStore :=
  h.foldl (fun acc e => cachePut acc e.path e.fingerprint e.index) s

/-- The last recorded `put` for a given path in a history. -/
def lastPutFor (h : List PutEvent) (p : String) : Option PutEvent :=
  h.reverse.find? (fun e => e.path == p)

/-- Replaying a history leaves each path holding exactly the last `put`
recorded for it (or the original entry when the history never wrote the
path). -/
theorem applyPuts_eq_lastPut (h : List PutEvent) (s : CacheStore) (p : String) :
    applyPuts s h p = match lastPutFor h p with
      | some e => some (e.fingerprint, e.index)
      | none => s p := by
  induction h using List.reverseRecOn with
  | nil => rfl
  | append_singleton t e ih =>
      have happ : applyPuts s (t ++ [e])
          = cachePut (applyPuts s t) e.path e.fingerprint e.index := by
        simp [applyPuts, List.foldl_append]
      have hlast : lastPutFor (t ++ [e]) p
          = if e.path = p then some e else lastPutFor t p := by
        simp only [lastPutFor, List.reverse_append, List.reverse_singleton,
          List.singleton_append, List.find?_cons]
        by_cases hp : e.path = p
        · simp [hp]
        · rw [show (e.path == p) = false from beq_eq_false_iff_ne.mpr hp]
          simp [hp]
      rw [happ, hlast]
      by_cases hp : e.path = p
      · subst hp
        simp [cachePut]
      · rw [if_neg hp]
        show (if p = e.path then _ else applyPuts s t p) = _
        rw [if_neg (fun hq => hp hq.symm), ih]

/-- C6: for every history of `put` operations, `get(path, fingerprint)`
on the resulting Cache Store returns `some index` exactly when a
`put(path, fingerprint, index)` with that very fingerprint is the last
recorded `put` for that path — never an entry stored under a different
fingerprint, never an entry for another path. -/
theorem c6_cache_exactness (h : List PutEvent) (p : String) (f : Fingerprint)
    (idx : ExtractedIndex) :
    cacheGet (applyPuts emptyCacheStore h) p f = some idx ↔
      lastPutFor h p = some ⟨p, f, idx⟩ := by
  have hsp := applyPuts_eq_lastPut h emptyCacheStore p
  cases hlast : lastPutFor h p with
  | none =>
      rw [hlast] at hsp
      have hsp' : applyPuts emptyCacheStore h p = none := hsp
      simp [cacheGet, hsp', hlast]
  | some e =>
      rw [hlast] at hsp
      have hsp' : applyPuts emptyCacheStore h p
          = some (e.fingerprint, e.index) := hsp
      have hfind : List.find? (fun x : PutEvent => x.path == p) h.reverse
          = some e := hlast
      have hpath : e.path = p := by
        simpa [beq_iff_eq] using List.find?_some hfind
      simp only [cacheGet, hsp', hlast, Option.some.injEq]
      constructor
      · intro hx
        by_cases hf : e.fingerprint = f
        · rw [if_pos hf] at hx
          have hidx := Option.some.inj hx
          obtain ⟨ep, ef, ei⟩ := e
          simp only at hpath hf hidx
          rw [hpath, hf, hidx]
        · rw [if_neg hf] at hx
          exact absurd hx (by simp)
      · intro hx
        subst hx
        simp

/-- Modelled from the spec: the content fingerprint of a file's bytes —
a deterministic, injective hash, modelled as the content itself. -/
def fingerprintOf (content : String) : Fingerprint :=
  content

/-- Modelled from the spec: a `MergeRequest` work item — the path, the
fingerprint that was actually parsed, the timestamp, and the extracted
index. -/
structure MergeRequest where
  path : String
  fingerprint : Fingerprint
  timestamp : Nat
  index : ExtractedIndex

/-- Modelled from the spec: the state the indexing pipeline acts on —
the Symbol Index Database, the Cache Store, the Staleness Tracker's
per-path last-indexed fingerprint, and per-file diagnostics. -/
structure PipelineState where
  db : Database
  cache : CacheStore
  tracker : String → Option Fingerprint
  diagnostics : String → Option String

/-- Modelled from the spec: the Staleness Tracker's `needs_reindex` —
a file needs reindexing unless its current content fingerprint equals
the last recorded one. -/
def needsReindex (st : PipelineState) (path content : String) : Bool :=
  st.tracker path != some (fingerprintOf content)

/-- Modelled from the spec: one Indexing Pipeline worker step for a
parse request — staleness check, Cache Store consultation to skip an
unchanged file, Front-end Adapter invocation on a miss; on success a
`MergeRequest` is produced, on failure the error is recorded against
the file's diagnostics and no merge is enqueued.  Returns the updated
state, the `MergeRequest` to enqueue (if any), and whether the
Front-end Adapter was invoked. -/
def workerStep (parse : String → Except String ExtractedIndex)
    (st : PipelineState) (path content : String) (ts : Nat) :
    PipelineState × Option MergeRequest × Bool :=
  if needsReindex st path content then
    match cacheGet st.cache path (fingerprintOf content) with
    | some idx => (st, some ⟨path, fingerprintOf content, ts, idx⟩, false)
    | none =>
        match parse content with
        | .ok idx =>
            ({ st with
                cache := cachePut st.cache path (fingerprintOf content) idx },
              some ⟨path, fingerprintOf content, ts, idx⟩, true)
        | .error e =>
            ({ st with diagnostics := fun q =>
                if q = path then some e else st.diagnostics q },
              none, true)
  else (st, none, false)

/-- Modelled from the spec: the Merge Engine consuming one
`MergeRequest` — merge into the database and record the indexed
fingerprint with the Staleness Tracker. -/
def applyMergeRequest (st : PipelineState) (req : MergeRequest) :
    PipelineState :=
  { st with
    db := merge st.db req.path req.fingerprint req.timestamp req.index
    tracker := fun q =>
      if q = req.path then some req.fingerprint else st.tracker q }

/-- Modelled from the spec: the full reindex path for one file — the
worker step followed by the Merge Engine consuming the produced request
(if any).  The Boolean records whether the Front-end Adapter was
invoked. -/
def reindex (parse : String → Except String ExtractedIndex)
    (st : PipelineState) (path content : String) (ts : Nat) :
    PipelineState × Bool :=
  match workerStep parse st path content ts with
  | (st', some req, parsed) => (applyMergeRequest st' req, parsed)
  | (st', none, parsed) => (st', parsed)

/-- C3: when a file's content fingerprint equals the fingerprint last
recorded for it, the full reindex path returns the pipeline state
unchanged (database, cache, tracker and diagnostics all identical) and
does not invoke the Front-end Adapter; moreover, whenever a valid
`CacheEntry` for the requested fingerprint exists, the worker step
never invokes the Front-end Adapter. -/
theorem c3_reindex_idempotence (parse : String → Except String ExtractedIndex)
    (st : PipelineState) (path content : String) (ts : Nat)
    (hfp : st.tracker path = some (fingerprintOf content)) :
    reindex parse st path content ts = (st, false) ∧
    (∀ st' : PipelineState, ∀ idx : ExtractedIndex,
      cacheGet st'.cache path (fingerprintOf content) = some idx →
        (workerStep parse st' path content ts).2.2 = false) := by
  constructor
  · have hneeds : needsReindex st path content = false := by
      simp [needsReindex, hfp]
    simp [reindex, workerStep, hneeds]
  · intro st' idx hcache
    unfold workerStep
    by_cases hn : needsReindex st' path content
    · simp [hn, hcache]
    · simp [hn]

/-- A pipeline state whose tracker already records "a.cpp" as indexed
at the fingerprint of content "content-a". -/
def exIndexedState : PipelineState :=
  { db := exDb
    cache := emptyCacheStore
    tracker := fun p => if p = "a.cpp" then some "content-a" else none
    diagnostics := fun _ => none }

/-- C3, witness: reindexing "a.cpp" with unchanged content leaves the
concrete pipeline state untouched and does not invoke the parser. -/
theorem c3_reindex_idempotence_witness :
    exIndexedState.tracker "a.cpp" = some (fingerprintOf "content-a") ∧
    reindex (fun _ => Except.ok []) exIndexedState "a.cpp" "content-a" 5
      = (exIndexedState, false) :=
  ⟨rfl, (c3_reindex_idempotence (fun _ => Except.ok []) exIndexedState
    "a.cpp" "content-a" 5 rfl).1⟩

/-- C7: when the file is stale, the cache misses and the Front-end
Adapter fails, the worker step records the `ParseError` in the file's
diagnostics, produces no `MergeRequest`, and the full reindex path
leaves the database — the file's record and every symbol lookup —
exactly as it was, so queries keep returning the previous indexed
state. -/
theorem c7_parse_failure_atomicity (parse : String → Except String ExtractedIndex)
    (st : PipelineState) (path content : String) (ts : Nat) (e : String)
    (hneeds : needsReindex st path content = true)
    (hcache : cacheGet st.cache path (fingerprintOf content) = none)
    (herr : parse content = Except.error e) :
    (workerStep parse st path content ts).2.1 = none ∧
    (reindex parse st path content ts).1.db = st.db ∧
    (reindex parse st path content ts).1.diagnostics path = some e ∧
    (∀ id, find_definition (reindex parse st path content ts).1.db id
      = find_definition st.db id) ∧
    (reindex parse st path content ts).1.db.files path = st.db.files path := by
  have hw : workerStep parse st path content ts
      = ({ st with diagnostics := fun q =>
            if q = path then some e else st.diagnostics q },
          none, true) := by
    simp [workerStep, hneeds, hcache, herr]
  have hr : reindex parse st path content ts
      = ({ st with diagnostics := fun q =>
            if q = path then some e else st.diagnostics q }, true) := by
    simp [reindex, hw]
  exact ⟨by rw [hw], by rw [hr], by rw [hr]; simp,
    fun id => by rw [hr], by rw [hr]⟩

/-- A pipeline state that has never indexed anything: empty cache,
empty tracker, no diagnostics, over the concrete database `exDb`. -/
def exFreshState : PipelineState :=
  { db := exDb
    cache := emptyCacheStore
    tracker := fun _ => none
    diagnostics := fun _ => none }

/-- A Front-end Adapter stub that always fails. -/
def exFailingFrontend : String → Except String ExtractedIndex :=
  fun _ => Except.error "boom"

/-- C7, witness: a failing parse of "a.cpp" on the concrete fresh state
records the diagnostic, enqueues no merge, and leaves the database
unchanged. -/
theorem c7_parse_failure_atomicity_witness :
    needsReindex exFreshState "a.cpp" "content-a" = true ∧
    cacheGet exFreshState.cache "a.cpp" (fingerprintOf "content-a") = none ∧
    exFailingFrontend "content-a" = Except.error "boom" ∧
    (workerStep exFailingFrontend exFreshState "a.cpp" "content-a" 7).2.1
      = none ∧
    (reindex exFailingFrontend exFreshState "a.cpp" "content-a" 7).1.db
      = exFreshState.db ∧
    (reindex exFailingFrontend exFreshState "a.cpp" "content-a" 7).1.diagnostics
      "a.cpp" = some "boom" := by
  have h := c7_parse_failure_atomicity exFailingFrontend exFreshState
    "a.cpp" "content-a" 7 "boom" rfl rfl rfl
  exact ⟨rfl, rfl, rfl, h.1, h.2.1, h.2.2.1⟩

end Cquery
